import Mathlib

set_option maxHeartbeats 1000000

/-!
Shallow embedding of the DeathLogger agent (src/Agent/src/main.rs).

Machine integers (i64) are modelled as unbounded Int; two's-complement
overflow of i64 arithmetic is not modelled, except that the i64::MAX
sentinel initialising best_dt in find_nearest_screenshot is kept exact,
because it is observable.  Effects are explicit inputs: handle_sv_change
receives the file-existence flag, the outcome of the Lua evaluation done
by parse_latest_death_from_sv, and the outcome of the upload call as
arguments; handle_screenshot_created receives the timestamp the code
derives from the file's mtime (falling back to the current wall clock).
-/

/-- JSON values (serde_json::Value).  Rust's split between integer and
floating-point numbers is kept; floats are modelled as rationals. -/
inductive Json where
  | null
  | bool (b : Bool)
  | int (n : Int)
  | num (q : Rat)
  | str (s : String)
  | arr (xs : List Json)
  | obj (kvs : List (String × Json))

/-- Lua values as surfaced by mlua (mlua::Value).  A table is its list of
key/value pairs in iteration order; `other` stands for the remaining mlua
variants (functions, userdata, threads, ...), which the agent never
produces as data. -/
inductive LuaValue where
  | nil
  | boolean (b : Bool)
  | integer (i : Int)
  | number (q : Rat)
  | str (s : String)
  | table (t : List (LuaValue × LuaValue))
  | other

/-- struct PendingShot: one queued screenshot observation. -/
structure PendingShot where
  path : String
  ts_epoch : Int
deriving DecidableEq

/-- struct State: the persisted ledger (BTreeMap modelled as an assoc list
kept sorted by mapInsert) plus the pending-screenshot queue (VecDeque
modelled as a list, front first). -/
structure State where
  last_uploaded : List (String × Int) := []
  pending_screens : List PendingShot := []
deriving DecidableEq

/-- struct Config (the fields the modelled core reads; the transport and
installer fields are carried for fidelity but feed unmodelled I/O). -/
structure Config where
  wow_root : String := ""
  wow_branch : String := "_retail_"
  api_url : String := ""
  api_token : String := ""
  start_with_windows : Bool := false
  pair_window_secs : Int := 120
  update_addon_on_start : Bool := true

/-- struct DeathPayload: the normalized EventRecord. -/
structure DeathPayload where
  «at» : Int
  player : String
  realm : String
  «class» : Option String
  level : Option Int
  location : Json
  killer : Json
  bags : Json
  equipped : Json
  «instance» : Json
  moneyCopper : Option Int
  moneyGold : Option Int
  moneySilver : Option Int
  moneyCopperOnly : Option Int

/-- fn to_key: the IdentityKey player\x40realm. -/
def to_key (player realm : String) : String :=
  player ++ "@" ++ realm

/-- BTreeMap::get on the ledger. -/
def mapGet (m : List (String × Int)) (k : String) : Option Int :=
  match m with
  | [] => none
  | (k2, v) :: rest => if k = k2 then some v else mapGet rest k

/-- BTreeMap::insert on the ledger (sorted insert, replacing an equal key). -/
def mapInsert (m : List (String × Int)) (k : String) (v : Int) : List (String × Int) :=
  match m with
  | [] => [(k, v)]
  | (k2, v2) :: rest =>
    if k = k2 then (k, v) :: rest
    else if k < k2 then (k, v) :: (k2, v2) :: rest
    else (k2, v2) :: mapInsert rest k v

/-- The i64::MAX sentinel that initialises best_dt in
find_nearest_screenshot. -/
def i64MAX : Int := 2 ^ 63 - 1

/-- The scanning loop of fn find_nearest_screenshot: best and best_dt are
the mutable loop state. -/
def findNearestGo (death_ts window_secs : Int) :
    List PendingShot → Option PendingShot → Int → Option PendingShot
  | [], best, _ => best
  | p :: rest, best, best_dt =>
    let dt := |p.ts_epoch - death_ts|
    if dt < best_dt ∧ dt ≤ window_secs then
      findNearestGo death_ts window_secs rest (some p) dt
    else
      findNearestGo death_ts window_secs rest best best_dt

/-- fn find_nearest_screenshot. -/
def find_nearest_screenshot (state : State) (death_ts window_secs : Int) :
    Option PendingShot :=
  findNearestGo death_ts window_secs state.pending_screens none i64MAX

/-- The eviction loop of fn handle_screenshot_created:
while pending_screens.len() > 50 pop_front. -/
def evictOldest (l : List PendingShot) : List PendingShot :=
  if h : 50 < l.length then evictOldest l.tail else l
termination_by l.length
decreasing_by
  cases l with
  | nil => simp at h
  | cons a as => simp

/-- fn handle_screenshot_created (ts is the mtime-derived timestamp;
save_state is persistence I/O, not modelled). -/
def handle_screenshot_created (state : State) (path : String) (ts : Int) : State :=
  let pushed : State :=
    { state with pending_screens := state.pending_screens ++ [⟨path, ts⟩] }
  { pushed with pending_screens := evictOldest pushed.pending_screens }

/-- The outcome of fn upload (transport I/O, an input to the model). -/
inductive UploadOutcome where
  | success
  | failure (e : String)

/-- What one invocation of fn handle_sv_change produces: its Result, the
state it leaves behind, and whether it reached the transport call. -/
structure HandleResult where
  res : Except String Unit
  state : State
  transport_called : Bool

/-- Removal of the matched screenshot: position of the first element with
the winning path, then remove. -/
def removeFirstPath : List PendingShot → String → List PendingShot
  | [], _ => []
  | p :: rest, path => if p.path = path then rest else p :: removeFirstPath rest path

/-- fn handle_sv_change.  sv_exists is sv_file.exists(); parsed is what
parse_latest_death_from_sv returned; uploadResult is the transport
outcome. -/
def handle_sv_change (cfg : Config) (state : State) (sv_exists : Bool)
    (parsed : Except String (Option DeathPayload))
    (uploadResult : UploadOutcome) : HandleResult :=
  if !sv_exists then ⟨.ok (), state, false⟩ else
  match parsed with
  | .error e => ⟨.error e, state, false⟩
  | .ok none => ⟨.ok (), state, false⟩
  | .ok (some latest) =>
    let key := to_key latest.player latest.realm
    let already := (mapGet state.last_uploaded key).getD 0
    if latest.«at» ≤ already then ⟨.ok (), state, false⟩
    else
      let near := find_nearest_screenshot state latest.«at» cfg.pair_window_secs
      match uploadResult with
      | .failure e => ⟨.error e, state, true⟩
      | .success =>
        let state2 : State :=
          { state with last_uploaded := mapInsert state.last_uploaded key latest.«at» }
        let state3 : State :=
          match near with
          | some n =>
            { state2 with pending_screens := removeFirstPath state2.pending_screens n.path }
          | none => state2
        ⟨.ok (), state3, true⟩

/-- The key stringification of lua_to_json's object branch:
String keys pass through, integer keys become decimal strings,
anything else becomes the literal key "key". -/
def keyToString : LuaValue → String
  | .str s => s
  | .integer i => toString i
  | _ => "key"

/-- serde_json::Map::insert (a BTreeMap: ordered insert, replacing an
equal key). -/
def insertSorted (k : String) (v : Json) : List (String × Json) → List (String × Json)
  | [] => [(k, v)]
  | (k2, v2) :: rest =>
    if k = k2 then (k, v) :: rest
    else if k < k2 then (k, v) :: (k2, v2) :: rest
    else (k2, v2) :: insertSorted k v rest

mutual

/-- fn lua_to_json.  The two passes of the table case (the is_array scan
and the object-branch rebuild) both convert sub-values; the conversion is
hoisted into luaPairsConv (the conversion is pure, so converting each
value once is observationally the same as Rust's converting integer-keyed
values in the scan and re-converting all values in the object branch).
The unused max_index bookkeeping of the scan is dropped. -/
def lua_to_json : LuaValue → Json
  | .nil => .null
  | .boolean b => .bool b
  | .integer i => .int i
  | .number n => .num n
  | .str s => .str s
  | .other => .null
  | .table t =>
    let conv := luaPairsConv t
    let is_array := conv.foldl
      (fun b p => match p.1 with | .integer _ => b | _ => false) true
    let entries : List (Int × Json) := conv.filterMap
      (fun p => match p.1 with | .integer i => some (i, p.2) | _ => none)
    if is_array && !entries.isEmpty then
      .arr ((List.insertionSort (fun a b => a.1 ≤ b.1) entries).map (fun e => e.2))
    else
      .obj (conv.foldl (fun m p => insertSorted (keyToString p.1) p.2 m) [])

/-- Conversion of a table's pairs: each value through lua_to_json, the
key kept. -/
def luaPairsConv : List (LuaValue × LuaValue) → List (LuaValue × Json)
  | [] => []
  | (k, v) :: rest => (k, lua_to_json v) :: luaPairsConv rest

end

/-- Lua table lookup at a string key (tbl.get::<_, LuaValue>(k)): the
first pair whose key is the string k, Nil when absent. -/
def tableGetStr (t : List (LuaValue × LuaValue)) (k : String) : LuaValue :=
  match t with
  | [] => .nil
  | (k2, v) :: rest =>
    match k2 with
    | .str s => if s = k then v else tableGetStr rest k
    | _ => tableGetStr rest k

/-- Lua globals lookup (lua.globals().get(name)): Nil when the binding is
absent. -/
def globalGet (g : List (String × LuaValue)) (name : String) : LuaValue :=
  match g with
  | [] => .nil
  | (n, v) :: rest => if n = name then v else globalGet rest name

/-- Rust `n as i64` on the modelled float: truncation toward zero. -/
def truncRat (q : Rat) : Int :=
  if q < 0 then ⌈q⌉ else ⌊q⌋

/-- The integer-or-float field extraction used for at, level and the four
money fields: Integer passes through, Number is cast with `as i64`,
anything else is None. -/
def extractInt (v : LuaValue) : Option Int :=
  match v with
  | .integer i => some i
  | .number n => some (truncRat n)
  | _ => none

/-- The string field extraction used for player, realm and class. -/
def extractString (v : LuaValue) : Option String :=
  match v with
  | .str s => some s
  | _ => none

/-- The max-index walk of fn parse_latest_death_from_sv over the deaths
table: mutable max_i (starting at 0) and latest. -/
def latestGo : List (LuaValue × LuaValue) → Int →
    Option (List (LuaValue × LuaValue)) → Option (List (LuaValue × LuaValue))
  | [], _, latest => latest
  | (k, v) :: rest, max_i, latest =>
    match k, v with
    | .integer i, .table t =>
      if i > max_i then latestGo rest i (some t) else latestGo rest max_i latest
    | _, _ => latestGo rest max_i latest

/-- The winning entry of the deaths table (max positive integer index with
a table value), if any. -/
def latestDeathEntry (deaths : List (LuaValue × LuaValue)) :
    Option (List (LuaValue × LuaValue)) :=
  latestGo deaths 0 none

/-- The instance sub-object: the four instance keys, each converted (a
missing key reads as Nil and converts to null) and inserted into a
serde_json::Map. -/
def instanceJson (t : List (LuaValue × LuaValue)) : Json :=
  .obj (List.foldl
    (fun m k => insertSorted k (lua_to_json (tableGetStr t k)) m) []
    ["instanceID", "instanceName", "instanceDifficulty", "mapDifficultyID"])

/-- The field extraction of fn parse_latest_death_from_sv on the winning
entry. -/
def mkPayload (t : List (LuaValue × LuaValue)) : DeathPayload where
  «at» := (extractInt (tableGetStr t "at")).getD 0
  player := (extractString (tableGetStr t "player")).getD ""
  realm := (extractString (tableGetStr t "realm")).getD ""
  «class» := extractString (tableGetStr t "class")
  level := extractInt (tableGetStr t "level")
  location := lua_to_json (tableGetStr t "location")
  killer := lua_to_json (tableGetStr t "killer")
  bags := lua_to_json (tableGetStr t "bags")
  equipped := lua_to_json (tableGetStr t "equipped")
  «instance» := instanceJson t
  moneyCopper := extractInt (tableGetStr t "moneyCopper")
  moneyGold := extractInt (tableGetStr t "moneyGold")
  moneySilver := extractInt (tableGetStr t "moneySilver")
  moneyCopperOnly := extractInt (tableGetStr t "moneyCopperOnly")

/-- fn parse_latest_death_from_sv.  Reading the file and executing its
Lua in a fresh interpreter is I/O: evalResult is that stage's outcome,
error when read_to_string or lua.load(..).exec() failed (mlua reports a
syntactically invalid chunk as an exec error), ok with the resulting
global bindings otherwise. -/
def parse_latest_death_from_sv (evalResult : Except String (List (String × LuaValue))) :
    Except String (Option DeathPayload) :=
  match evalResult with
  | .error e => .error e
  | .ok globals =>
    match globalGet globals "DeathLoggerDB" with
    | .table db_tbl =>
      match tableGetStr db_tbl "deaths" with
      | .table deaths_tbl =>
        match latestDeathEntry deaths_tbl with
        | none => .ok none
        | some t => .ok (some (mkPayload t))
      | _ => .ok none
    | _ => .ok none

/-- mapInsert updates exactly its own key and leaves every other binding
readable unchanged. -/
theorem mapGet_mapInsert (m : List (String × Int)) (k : String) (v : Int) (k2 : String) :
    mapGet (mapInsert m k v) k2 = if k2 = k then some v else mapGet m k2 := by
  induction m with
  | nil =>
    by_cases h : k2 = k <;> simp [mapInsert, mapGet, h]
  | cons p rest ih =>
    obtain ⟨k3, v3⟩ := p
    simp only [mapInsert]
    by_cases h1 : k = k3
    · subst h1
      by_cases h2 : k2 = k <;> simp [mapGet, h2]
    · rw [if_neg h1]
      by_cases h3 : k < k3
      · rw [if_pos h3]
        by_cases h2 : k2 = k <;> simp [mapGet, h2]
      · rw [if_neg h3]
        by_cases h4 : k2 = k3
        · subst h4
          have hk : ¬ k2 = k := fun hh => h1 hh.symm
          simp [mapGet, hk]
        · simp [mapGet, h4, ih]

/-- The state a successful delivery leaves behind: ledger advanced for the
IdentityKey, the paired screenshot (if any) removed. -/
def deliveredState (cfg : Config) (s : State) (d : DeathPayload) : State :=
  let key := to_key d.player d.realm
  let state2 : State :=
    { s with last_uploaded := mapInsert s.last_uploaded key d.«at» }
  match find_nearest_screenshot s d.«at» cfg.pair_window_secs with
  | some n => { state2 with pending_screens := removeFirstPath state2.pending_screens n.path }
  | none => state2

theorem handle_stale_eq (cfg : Config) (s : State) (d : DeathPayload) (up : UploadOutcome)
    (h : d.«at» ≤ (mapGet s.last_uploaded (to_key d.player d.realm)).getD 0) :
    handle_sv_change cfg s true (.ok (some d)) up = ⟨.ok (), s, false⟩ := by
  simp [handle_sv_change, h]

theorem handle_fail_eq (cfg : Config) (s : State) (d : DeathPayload) (e : String)
    (h : (mapGet s.last_uploaded (to_key d.player d.realm)).getD 0 < d.«at») :
    handle_sv_change cfg s true (.ok (some d)) (.failure e) = ⟨.error e, s, true⟩ := by
  simp [handle_sv_change, h.not_le]

theorem handle_success_eq (cfg : Config) (s : State) (d : DeathPayload)
    (h : (mapGet s.last_uploaded (to_key d.player d.realm)).getD 0 < d.«at») :
    handle_sv_change cfg s true (.ok (some d)) .success =
      ⟨.ok (), deliveredState cfg s d, true⟩ := by
  cases hnear : find_nearest_screenshot s d.«at» cfg.pair_window_secs <;>
    simp [handle_sv_change, deliveredState, h.not_le, hnear]

theorem deliveredState_last_uploaded (cfg : Config) (s : State) (d : DeathPayload) :
    (deliveredState cfg s d).last_uploaded =
      mapInsert s.last_uploaded (to_key d.player d.realm) d.«at» := by
  unfold deliveredState
  cases find_nearest_screenshot s d.«at» cfg.pair_window_secs <;> rfl

/-- A payload with the given timestamp and identity, every optional or
opaque field empty: used to instantiate theorems on concrete inputs. -/
def simplePayload (a : Int) (pl rl : String) : DeathPayload :=
  ⟨a, pl, rl, none, none, .null, .null, .null, .null, .null, none, none, none, none⟩

/-- C1: for a latest record with identity key k and timestamp at,
handle_sv_change attempts delivery (reaches the transport call) exactly
when at is strictly greater than the ledger's last-delivered value for k
(0 when k is absent); when at is not strictly greater it returns Ok
without a transport call and with the state unchanged. -/
theorem handle_dedup_gate (cfg : Config) (s : State) (d : DeathPayload) (up : UploadOutcome) :
    (d.«at» ≤ (mapGet s.last_uploaded (to_key d.player d.realm)).getD 0 →
      handle_sv_change cfg s true (.ok (some d)) up = ⟨.ok (), s, false⟩) ∧
    ((mapGet s.last_uploaded (to_key d.player d.realm)).getD 0 < d.«at» →
      (handle_sv_change cfg s true (.ok (some d)) up).transport_called = true) := by
  constructor
  · intro h
    exact handle_stale_eq cfg s d up h
  · intro h
    cases up with
    | success => rw [handle_success_eq cfg s d h]
    | failure e => rw [handle_fail_eq cfg s d e h]

/-- C1, instantiated: a stale record (at 5 against a ledger at 10) is a
pure no-op, and a novel record (at 20) reaches the transport. -/
theorem handle_dedup_gate_witness :
    handle_sv_change {} ⟨[("p@r", 10)], []⟩ true (.ok (some (simplePayload 5 "p" "r")))
        .success = ⟨.ok (), ⟨[("p@r", 10)], []⟩, false⟩ ∧
    (handle_sv_change {} ⟨[("p@r", 10)], []⟩ true (.ok (some (simplePayload 20 "p" "r")))
        .success).transport_called = true :=
  ⟨(handle_dedup_gate {} ⟨[("p@r", 10)], []⟩ (simplePayload 5 "p" "r") .success).1 (by decide),
   (handle_dedup_gate {} ⟨[("p@r", 10)], []⟩ (simplePayload 20 "p" "r") .success).2 (by decide)⟩

/-- C2: once a novel record has been delivered successfully, re-invoking
handle_sv_change on the same unchanged source (same parse result) is a
no-op: Ok, no transport call, state unchanged — so repeated calls against
an unchanged source make exactly one successful transport call. -/
theorem handle_idempotent_after_success (cfg : Config) (s : State) (d : DeathPayload)
    (h : (mapGet s.last_uploaded (to_key d.player d.realm)).getD 0 < d.«at») :
    (handle_sv_change cfg s true (.ok (some d)) .success).res = .ok () ∧
    (handle_sv_change cfg s true (.ok (some d)) .success).transport_called = true ∧
    ∀ up2 : UploadOutcome,
      handle_sv_change cfg (handle_sv_change cfg s true (.ok (some d)) .success).state
          true (.ok (some d)) up2 =
        ⟨.ok (), (handle_sv_change cfg s true (.ok (some d)) .success).state, false⟩ := by
  rw [handle_success_eq cfg s d h]
  refine ⟨rfl, rfl, ?_⟩
  intro up2
  apply handle_stale_eq
  rw [deliveredState_last_uploaded, mapGet_mapInsert]
  simp

/-- C2, instantiated at a fresh key: the first call delivers, the second
call (with any transport outcome) is a no-op on the resulting state. -/
theorem handle_idempotent_after_success_witness :
    (handle_sv_change {} ⟨[], []⟩ true (.ok (some (simplePayload 7 "p" "r")))
        .success).res = .ok () ∧
    (handle_sv_change {} ⟨[], []⟩ true (.ok (some (simplePayload 7 "p" "r")))
        .success).transport_called = true ∧
    ∀ up2 : UploadOutcome,
      handle_sv_change {}
          (handle_sv_change {} ⟨[], []⟩ true (.ok (some (simplePayload 7 "p" "r")))
            .success).state
          true (.ok (some (simplePayload 7 "p" "r"))) up2 =
        ⟨.ok (),
          (handle_sv_change {} ⟨[], []⟩ true (.ok (some (simplePayload 7 "p" "r")))
            .success).state, false⟩ :=
  handle_idempotent_after_success {} ⟨[], []⟩ (simplePayload 7 "p" "r") (by decide)

/-- C3: when the upload fails, handle_sv_change returns the error and the
whole state — ledger and pending-screenshot queue — is unchanged; a
subsequent successful invocation advances the ledger entry for the
record's key exactly once, to the record's at, touching no other key. -/
theorem handle_failure_preserves_state (cfg : Config) (s : State) (d : DeathPayload)
    (e : String)
    (h : (mapGet s.last_uploaded (to_key d.player d.realm)).getD 0 < d.«at») :
    handle_sv_change cfg s true (.ok (some d)) (.failure e) = ⟨.error e, s, true⟩ ∧
    mapGet (handle_sv_change cfg s true (.ok (some d)) .success).state.last_uploaded
        (to_key d.player d.realm) = some d.«at» ∧
    ∀ k2 : String, ¬ k2 = to_key d.player d.realm →
      mapGet (handle_sv_change cfg s true (.ok (some d)) .success).state.last_uploaded k2 =
        mapGet s.last_uploaded k2 := by
  refine ⟨handle_fail_eq cfg s d e h, ?_, ?_⟩
  · simp only [handle_success_eq cfg s d h, deliveredState_last_uploaded, mapGet_mapInsert]
    simp
  · intro k2 hk
    simp only [handle_success_eq cfg s d h, deliveredState_last_uploaded, mapGet_mapInsert]
    rw [if_neg hk]

/-- C3, instantiated: a failed upload of a novel record leaves the state
unchanged; the successful retry sets the ledger entry to the record's at
and leaves the other key alone. -/
theorem handle_failure_preserves_state_witness :
    handle_sv_change {} ⟨[("x@y", 3)], []⟩ true (.ok (some (simplePayload 7 "p" "r")))
        (.failure "boom") = ⟨.error "boom", ⟨[("x@y", 3)], []⟩, true⟩ ∧
    mapGet (handle_sv_change {} ⟨[("x@y", 3)], []⟩ true
        (.ok (some (simplePayload 7 "p" "r"))) .success).state.last_uploaded
        (to_key "p" "r") = some 7 ∧
    ∀ k2 : String, ¬ k2 = to_key "p" "r" →
      mapGet (handle_sv_change {} ⟨[("x@y", 3)], []⟩ true
          (.ok (some (simplePayload 7 "p" "r"))) .success).state.last_uploaded k2 =
        mapGet [("x@y", 3)] k2 :=
  handle_failure_preserves_state {} ⟨[("x@y", 3)], []⟩ (simplePayload 7 "p" "r") "boom"
    (by decide)

/-- C10 counterexample: a record whose at field is the integer -5 does
not have its extracted timestamp defaulted to 0 — it is extracted as -5
(a non-positive value, so it is still never deliverable). -/
theorem extract_at_cex :
    (mkPayload [(.str "at", .integer (-5))]).«at» = -5 ∧
    ((-5 : Int) ≤ 0) ∧
    ¬ (mkPayload [(.str "at", .integer (-5))]).«at» = 0 :=
  ⟨rfl, by decide, by decide⟩

/-- C10 (amended): a missing or non-numeric at extracts as 0; and any
record with at ≤ 0 is never delivered, even for a never-seen IdentityKey,
because the ledger default for an absent key is 0 and the novelty gate
requires strict increase. -/
theorem nonpositive_at_never_delivered :
    (∀ t : List (LuaValue × LuaValue),
        extractInt (tableGetStr t "at") = none → (mkPayload t).«at» = 0) ∧
    (∀ (cfg : Config) (s : State) (d : DeathPayload) (up : UploadOutcome),
        mapGet s.last_uploaded (to_key d.player d.realm) = none → d.«at» ≤ 0 →
        handle_sv_change cfg s true (.ok (some d)) up = ⟨.ok (), s, false⟩) := by
  constructor
  · intro t ht
    simp [mkPayload, ht]
  · intro cfg s d up hnone hle
    apply handle_stale_eq
    rw [hnone]
    simpa using hle

/-- C10, instantiated: a record with no at field extracts timestamp 0, and
a record with at = 0 on an empty ledger is not delivered. -/
theorem nonpositive_at_never_delivered_witness :
    (mkPayload [(.str "player", .str "p")]).«at» = 0 ∧
    handle_sv_change {} ⟨[], []⟩ true (.ok (some (simplePayload 0 "p" "r"))) .success =
      ⟨.ok (), ⟨[], []⟩, false⟩ :=
  ⟨nonpositive_at_never_delivered.1 [(.str "player", .str "p")] (by decide),
   nonpositive_at_never_delivered.2 {} ⟨[], []⟩ (simplePayload 0 "p" "r") .success rfl
     (by decide)⟩

theorem evictOldest_of_le (l : List PendingShot) (h : l.length ≤ 50) :
    evictOldest l = l := by
  rw [evictOldest]
  exact dif_neg (by omega)

theorem evictOldest_bound : ∀ (n : Nat) (l : List PendingShot),
    l.length ≤ n → (evictOldest l).length ≤ 50 := by
  intro n
  induction n with
  | zero =>
    intro l hl
    rw [evictOldest_of_le l (by omega)]
    omega
  | succ n ih =>
    intro l hl
    by_cases h : 50 < l.length
    · rw [evictOldest]
      rw [dif_pos h]
      exact ih l.tail (by cases l <;> simp_all <;> omega)
    · rw [evictOldest_of_le l (by omega)]
      omega

theorem evictOldest_drop : ∀ (n : Nat) (l : List PendingShot),
    l.length ≤ n → ∃ k, evictOldest l = l.drop k := by
  intro n
  induction n with
  | zero =>
    intro l hl
    exact ⟨0, by rw [evictOldest_of_le l (by omega)]; rfl⟩
  | succ n ih =>
    intro l hl
    by_cases h : 50 < l.length
    · rw [evictOldest, dif_pos h]
      obtain ⟨k, hk⟩ := ih l.tail (by cases l <;> simp_all <;> omega)
      exact ⟨k + 1, by rw [hk]; cases l <;> simp⟩
    · exact ⟨0, by rw [evictOldest_of_le l (by omega)]; rfl⟩

theorem evictOldest_of_51 (l : List PendingShot) (h : l.length = 51) :
    evictOldest l = l.tail := by
  rw [evictOldest, dif_pos (by omega)]
  exact evictOldest_of_le l.tail (by cases l <;> simp_all)

/-- C7: after an observation, the pending-screenshot queue holds at most
50 entries, the ledger is untouched, the queue is a suffix of the old
queue followed by the new observation (arrival order kept), and appending
to a queue of exactly 50 evicts precisely the front entry. -/
theorem screenshot_queue_bounded (s : State) (path : String) (ts : Int) :
    (handle_screenshot_created s path ts).pending_screens.length ≤ 50 ∧
    (handle_screenshot_created s path ts).last_uploaded = s.last_uploaded ∧
    (∃ k, (handle_screenshot_created s path ts).pending_screens =
        (s.pending_screens ++ [(⟨path, ts⟩ : PendingShot)]).drop k) ∧
    (s.pending_screens.length = 50 →
      (handle_screenshot_created s path ts).pending_screens =
        s.pending_screens.tail ++ [(⟨path, ts⟩ : PendingShot)]) := by
  refine ⟨?_, rfl, ?_, ?_⟩
  · exact evictOldest_bound (s.pending_screens ++ [(⟨path, ts⟩ : PendingShot)]).length _ le_rfl
  · exact evictOldest_drop (s.pending_screens ++ [(⟨path, ts⟩ : PendingShot)]).length _ le_rfl
  · intro h50
    show evictOldest (s.pending_screens ++ [(⟨path, ts⟩ : PendingShot)]) = _
    rw [evictOldest_of_51 _ (by simp [h50])]
    cases hp : s.pending_screens with
    | nil => rw [hp] at h50; simp at h50
    | cons a as => simp

/-- C7, instantiated: appending a 51st screenshot to a full queue of 50
keeps the bound, keeps order and evicts exactly the front entry. -/
theorem screenshot_queue_bounded_witness :
    (handle_screenshot_created ⟨[], []⟩ "b" 2).pending_screens.length ≤ 50 ∧
    (handle_screenshot_created ⟨[], []⟩ "b" 2).last_uploaded = State.last_uploaded ⟨[], []⟩ ∧
    (∃ k, (handle_screenshot_created ⟨[], []⟩ "b" 2).pending_screens =
        (State.pending_screens ⟨[], []⟩ ++ [(⟨"b", 2⟩ : PendingShot)]).drop k) ∧
    ((State.pending_screens ⟨[], []⟩).length = 50 →
      (handle_screenshot_created ⟨[], []⟩ "b" 2).pending_screens =
        (State.pending_screens ⟨[], []⟩).tail ++ [(⟨"b", 2⟩ : PendingShot)]) :=
  screenshot_queue_bounded ⟨[], []⟩ "b" 2

/-- A deaths table whose pairs are integer keys with table values, in an
arbitrary iteration order: the concrete table shape the claim quantifies
over. -/
def encodeDeaths (ps : List (Int × List (LuaValue × LuaValue))) :
    List (LuaValue × LuaValue) :=
  ps.map (fun p => (LuaValue.integer p.1, LuaValue.table p.2))

theorem latestGo_encode_skip : ∀ (ps : List (Int × List (LuaValue × LuaValue)))
    (mi : Int) (lat : Option (List (LuaValue × LuaValue))),
    (∀ p ∈ ps, p.1 ≤ mi) → latestGo (encodeDeaths ps) mi lat = lat := by
  intro ps
  induction ps with
  | nil => intro mi lat _; rfl
  | cons p rest ih =>
    intro mi lat h
    obtain ⟨i, u⟩ := p
    simp only [encodeDeaths, List.map_cons, latestGo]
    rw [if_neg (not_lt.mpr (h (i, u) (List.mem_cons_self _ _)))]
    exact ih mi lat (fun q hq => h q (List.mem_cons_of_mem _ hq))

theorem latestGo_encode_max : ∀ (ps : List (Int × List (LuaValue × LuaValue)))
    (mi : Int) (lat : Option (List (LuaValue × LuaValue)))
    (m : Int) (t : List (LuaValue × LuaValue)),
    (m, t) ∈ ps → mi < m → (∀ p ∈ ps, p.1 ≤ m) →
    ps.Pairwise (fun a b => a.1 ≠ b.1) →
    latestGo (encodeDeaths ps) mi lat = some t := by
  intro ps
  induction ps with
  | nil => intro mi lat m t hmem; simp at hmem
  | cons p rest ih =>
    intro mi lat m t hmem hgt hmax hkeys
    obtain ⟨i, u⟩ := p
    simp only [encodeDeaths, List.map_cons, latestGo]
    rcases List.mem_cons.mp hmem with heq | hmem2
    · obtain ⟨hm, ht⟩ := Prod.mk.injEq .. ▸ heq
      subst hm
      subst ht
      rw [if_pos hgt]
      exact latestGo_encode_skip rest m (some t)
        (fun q hq => hmax q (List.mem_cons_of_mem _ hq))
    · have hne : i ≠ m := by
        have h2 := (List.pairwise_cons.mp hkeys).1 (m, t) hmem2
        simpa using h2
      have hlt : i < m :=
        lt_of_le_of_ne (by simpa using hmax (i, u) (List.mem_cons_self _ _)) hne
      by_cases hcond : mi < i
      · rw [if_pos hcond]
        exact ih i (some u) m t hmem2 hlt
          (fun q hq => hmax q (List.mem_cons_of_mem _ hq))
          (List.pairwise_cons.mp hkeys).2
      · rw [if_neg hcond]
        exact ih mi lat m t hmem2 hgt
          (fun q hq => hmax q (List.mem_cons_of_mem _ hq))
          (List.pairwise_cons.mp hkeys).2

/-- C6: over any deaths table of integer-keyed table entries, in any
iteration order, with pairwise-distinct keys bounded by a positive
maximum m held by entry t, the reader's walk selects t — the entry at the
maximum integer index — and the full reader then returns its payload. -/
theorem reader_selects_max_index (ps : List (Int × List (LuaValue × LuaValue)))
    (m : Int) (t : List (LuaValue × LuaValue))
    (hmem : (m, t) ∈ ps) (hmax : ∀ p ∈ ps, p.1 ≤ m) (hpos : 0 < m)
    (hkeys : ps.Pairwise (fun a b => a.1 ≠ b.1)) :
    latestDeathEntry (encodeDeaths ps) = some t ∧
    parse_latest_death_from_sv
        (.ok [("DeathLoggerDB",
          .table [(.str "deaths", .table (encodeDeaths ps))])]) =
      .ok (some (mkPayload t)) := by
  have h1 : latestDeathEntry (encodeDeaths ps) = some t :=
    latestGo_encode_max ps 0 none m t hmem hpos hmax hkeys
  refine ⟨h1, ?_⟩
  simp [parse_latest_death_from_sv, globalGet, tableGetStr, latestDeathEntry] at h1 ⊢
  rw [h1]

/-- C6, instantiated on keys in iteration order 1, 3, 2: the entry at
key 3 is selected. -/
theorem reader_selects_max_index_witness :
    latestDeathEntry (encodeDeaths [(1, [(.str "at", .integer 11)]),
        (3, [(.str "at", .integer 33)]), (2, [(.str "at", .integer 22)])]) =
      some [(.str "at", .integer 33)] ∧
    parse_latest_death_from_sv
        (.ok [("DeathLoggerDB",
          .table [(.str "deaths", .table (encodeDeaths [(1, [(.str "at", .integer 11)]),
            (3, [(.str "at", .integer 33)]), (2, [(.str "at", .integer 22)])]))])]) =
      .ok (some (mkPayload [(.str "at", .integer 33)])) :=
  reader_selects_max_index
    [(1, [(.str "at", .integer 11)]), (3, [(.str "at", .integer 33)]),
      (2, [(.str "at", .integer 22)])]
    3 [(.str "at", .integer 33)]
    (by simp)
    (by
      intro p hp
      simp only [List.mem_cons, List.not_mem_nil, or_false] at hp
      rcases hp with h | h | h <;> subst h <;> norm_num)
    (by norm_num) (by norm_num [List.pairwise_cons])

/-- C9 counterexample: a file whose Lua evaluation fails — which is what
mlua reports for syntactically invalid content — yields a propagated
error, not the no-record result the claim ascribes to unparseable
files. -/
theorem parse_error_cex :
    parse_latest_death_from_sv (.error "unexpected symbol near eof") =
      .error "unexpected symbol near eof" ∧
    ¬ parse_latest_death_from_sv (.error "unexpected symbol near eof") =
      .ok none :=
  ⟨rfl, by simp [parse_latest_death_from_sv]⟩

/-- C9 (amended): evaluation failure (including syntactically invalid or
truncated content) propagates as an error, which handle_sv_change passes
through with the state unchanged (so the source is retried later); a root
binding that is missing or not table-shaped, or a deaths field that is
missing or not table-shaped, yields Ok-none instead. -/
theorem parse_failure_modes :
    (∀ e, parse_latest_death_from_sv (.error e) = .error e) ∧
    (∀ g, (∀ tb, ¬ globalGet g "DeathLoggerDB" = .table tb) →
      parse_latest_death_from_sv (.ok g) = .ok none) ∧
    (∀ g db, globalGet g "DeathLoggerDB" = .table db →
      (∀ tb, ¬ tableGetStr db "deaths" = .table tb) →
      parse_latest_death_from_sv (.ok g) = .ok none) ∧
    (∀ (cfg : Config) (s : State) (e : String) (up : UploadOutcome),
      handle_sv_change cfg s true (.error e) up = ⟨.error e, s, false⟩) := by
  refine ⟨fun e => rfl, ?_, ?_, fun cfg s e up => rfl⟩
  · intro g h
    cases hg : globalGet g "DeathLoggerDB"
    case table tb => exact absurd hg (h tb)
    all_goals simp [parse_latest_death_from_sv, hg]
  · intro g db hdb h
    rw [parse_latest_death_from_sv.eq_2, hdb]
    cases hd : tableGetStr db "deaths"
    case table tb => exact absurd hd (h tb)
    all_goals simp

/-- C9, instantiated: a propagated evaluation error, a non-table root, a
non-table deaths field, and the caller's handling of the error. -/
theorem parse_failure_modes_witness :
    parse_latest_death_from_sv (.error "read interrupted") =
      .error "read interrupted" ∧
    parse_latest_death_from_sv (.ok [("DeathLoggerDB", .integer 7)]) = .ok none ∧
    parse_latest_death_from_sv
        (.ok [("DeathLoggerDB", .table [(.str "deaths", .boolean true)])]) = .ok none ∧
    handle_sv_change {} ⟨[], []⟩ true (.error "read interrupted") .success =
      ⟨.error "read interrupted", ⟨[], []⟩, false⟩ :=
  ⟨parse_failure_modes.1 "read interrupted",
   parse_failure_modes.2.1 [("DeathLoggerDB", .integer 7)]
     (by intro tb; simp [globalGet]),
   parse_failure_modes.2.2.1 [("DeathLoggerDB", .table [(.str "deaths", .boolean true)])]
     [(.str "deaths", .boolean true)] (by simp [globalGet])
     (by intro tb; simp [tableGetStr]),
   parse_failure_modes.2.2.2 {} ⟨[], []⟩ "read interrupted" .success⟩

theorem luaPairsConv_eq_map : ∀ t : List (LuaValue × LuaValue),
    luaPairsConv t = t.map (fun p => (p.1, lua_to_json p.2)) := by
  intro t
  induction t with
  | nil => rfl
  | cons p rest ih =>
    obtain ⟨k, v⟩ := p
    simp [luaPairsConv, ih]

theorem isArrayScan_eq_all : ∀ (cs : List (LuaValue × Json)) (b : Bool),
    cs.foldl (fun b p => match p.1 with | LuaValue.integer _ => b | _ => false) b =
      (b && cs.all (fun p => match p.1 with | LuaValue.integer _ => true | _ => false)) := by
  intro cs
  induction cs with
  | nil => intro b; simp
  | cons p rest ih =>
    intro b
    obtain ⟨k, j⟩ := p
    cases k <;> simp [ih]

theorem filterMap_int_eq_nil_iff (cs : List (LuaValue × Json)) :
    cs.filterMap (fun p => match p.1 with
        | LuaValue.integer i => some (i, p.2) | _ => none) = [] ↔
      ∀ p ∈ cs, ∀ i : Int, ¬ p.1 = LuaValue.integer i := by
  rw [List.filterMap_eq_nil]
  constructor
  · intro h p hp i hpi
    have h2 := h p hp
    rw [hpi] at h2
    simp at h2
  · intro h p hp
    cases hk : p.1
    case integer i => exact absurd hk (h p hp i)
    all_goals simp [hk]

/-- The branch condition of lua_to_json's table case, characterised: the
scan classifies a table as an array exactly when it is non-empty and
every key is an integer (of any sign). -/
theorem lua_table_cond_iff (t : List (LuaValue × LuaValue)) :
    ((luaPairsConv t).foldl
        (fun b p => match p.1 with | LuaValue.integer _ => b | _ => false) true &&
      !((luaPairsConv t).filterMap
          (fun p => match p.1 with
            | LuaValue.integer i => some (i, p.2) | _ => none)).isEmpty) = true ↔
      (¬ t = [] ∧ ∀ p ∈ t, ∃ i, p.1 = LuaValue.integer i) := by
  rw [Bool.and_eq_true, isArrayScan_eq_all, Bool.true_and, List.all_eq_true,
    Bool.not_eq_true', List.isEmpty_eq_false, ne_eq, filterMap_int_eq_nil_iff,
    luaPairsConv_eq_map]
  simp only [List.mem_map, forall_exists_index, and_imp]
  constructor
  · rintro ⟨hall, hex⟩
    refine ⟨?_, ?_⟩
    · intro ht
      subst ht
      exact hex (by simp)
    · intro q2 hq2
      have h2 := hall (q2.1, lua_to_json q2.2) q2 hq2 rfl
      cases hk : q2.1 <;> rw [hk] at h2 <;> simp_all
  · rintro ⟨hne, hall⟩
    constructor
    · intro p q hq hpq
      obtain ⟨i, hi⟩ := hall q hq
      subst hpq
      simp [hi]
    · intro hnone
      cases ht : t with
      | nil => exact hne ht
      | cons q rest =>
        obtain ⟨i, hi⟩ := hall q (ht ▸ List.mem_cons_self q rest)
        exact hnone (q.1, lua_to_json q.2) q (ht ▸ List.mem_cons_self q rest) rfl i hi

theorem lua_to_json_table_eq (t : List (LuaValue × LuaValue)) :
    lua_to_json (.table t) =
      if ((luaPairsConv t).foldl
            (fun b p => match p.1 with | LuaValue.integer _ => b | _ => false) true &&
          !((luaPairsConv t).filterMap
              (fun p => match p.1 with
                | LuaValue.integer i => some (i, p.2) | _ => none)).isEmpty) then
        Json.arr ((List.insertionSort (fun a b => a.1 ≤ b.1)
            ((luaPairsConv t).filterMap
              (fun p => match p.1 with
                | LuaValue.integer i => some (i, p.2) | _ => none))).map (fun e => e.2))
      else
        Json.obj ((luaPairsConv t).foldl
          (fun m p => insertSorted (keyToString p.1) p.2 m) []) := rfl

/-- C8 counterexample: a table whose only key is the negative integer -1
is still classified as an array (so positivity of keys is not required),
and the empty table — every key vacuously a positive integer — is
classified as an object. -/
theorem lua_to_json_cex :
    lua_to_json (.table [(.integer (-1), .str "x")]) = Json.arr [Json.str "x"] ∧
    ((-1 : Int) < 0) ∧
    lua_to_json (.table []) = Json.obj [] :=
  ⟨rfl, by decide, rfl⟩

/-- C8 (amended): a nested table converts to a JSON array exactly when it
is non-empty and every key is an integer (of any sign, with no gap
requirement); otherwise it converts to a JSON object, whose keys are the
stringified table keys (integer keys via decimal toString); scalars pass
through as typed boolean/integer/float/string values. -/
theorem lua_to_json_classification (t : List (LuaValue × LuaValue)) :
    ((∃ xs, lua_to_json (.table t) = Json.arr xs) ↔
      (¬ t = [] ∧ ∀ p ∈ t, ∃ i, p.1 = LuaValue.integer i)) ∧
    (¬ (¬ t = [] ∧ ∀ p ∈ t, ∃ i, p.1 = LuaValue.integer i) →
      ∃ kvs, lua_to_json (.table t) = Json.obj kvs) ∧
    (∀ i : Int, keyToString (LuaValue.integer i) = toString i) ∧
    lua_to_json .nil = Json.null ∧
    (∀ b, lua_to_json (.boolean b) = Json.bool b) ∧
    (∀ i, lua_to_json (.integer i) = Json.int i) ∧
    (∀ q, lua_to_json (.number q) = Json.num q) ∧
    (∀ s, lua_to_json (.str s) = Json.str s) := by
  have hobj : ¬ (¬ t = [] ∧ ∀ p ∈ t, ∃ i, p.1 = LuaValue.integer i) →
      ∃ kvs, lua_to_json (.table t) = Json.obj kvs := by
    intro hn
    have heq := lua_to_json_table_eq t
    rw [if_neg (fun hc => hn ((lua_table_cond_iff t).mp hc))] at heq
    exact ⟨_, heq⟩
  refine ⟨⟨?_, ?_⟩, hobj, fun i => rfl, rfl, fun b => rfl, fun i => rfl,
    fun q => rfl, fun s => rfl⟩
  · rintro ⟨xs, hxs⟩
    by_contra hn
    obtain ⟨kvs, hkvs⟩ := hobj hn
    rw [hxs] at hkvs
    exact Json.noConfusion hkvs
  · intro hc
    have heq := lua_to_json_table_eq t
    rw [if_pos ((lua_table_cond_iff t).mpr hc)] at heq
    exact ⟨_, heq⟩

/-- C8, instantiated: a non-empty integer-keyed table becomes an array; a
string-keyed table becomes an object. -/
theorem lua_to_json_classification_witness :
    (∃ xs, lua_to_json (.table [(.integer 1, .str "x"), (.integer 2, .boolean true)]) =
      Json.arr xs) ∧
    (∃ kvs, lua_to_json (.table [(.str "a", .integer 3)]) = Json.obj kvs) :=
  ⟨(lua_to_json_classification [(.integer 1, .str "x"), (.integer 2, .boolean true)]).1.mpr
      (by
        refine ⟨by simp, ?_⟩
        intro p hp
        simp only [List.mem_cons, List.not_mem_nil, or_false] at hp
        rcases hp with h | h <;> subst h <;> exact ⟨_, rfl⟩),
   (lua_to_json_classification [(.str "a", .integer 3)]).2.1
      (by
        intro h
        obtain ⟨i, hi⟩ := h.2 (.str "a", .integer 3) (by simp)
        cases hi)⟩

/-- Reference selector written from the spec's words (the refinement
target for the Pairer): the first candidate in queue order at minimal
distance from ts among those within the window. -/
def firstMin (ts w : Int) : List PendingShot → Option PendingShot
  | [] => none
  | p :: rest =>
    if |p.ts_epoch - ts| ≤ w then
      match firstMin ts w rest with
      | none => some p
      | some q => if |q.ts_epoch - ts| < |p.ts_epoch - ts| then some q else some p
    else firstMin ts w rest

theorem findNearestGo_some_eq (ts w : Int) :
    ∀ (l : List PendingShot) (b : PendingShot), |b.ts_epoch - ts| ≤ w →
      findNearestGo ts w l (some b) |b.ts_epoch - ts| =
        match firstMin ts w l with
        | none => some b
        | some q =>
          if |q.ts_epoch - ts| < |b.ts_epoch - ts| then some q else some b := by
  intro l
  induction l with
  | nil => intro b hb; rfl
  | cons p rest ih =>
    intro b hb
    simp only [findNearestGo, firstMin]
    by_cases hpw : |p.ts_epoch - ts| ≤ w
    · by_cases hpb : |p.ts_epoch - ts| < |b.ts_epoch - ts|
      · rw [if_pos ⟨hpb, hpw⟩, if_pos hpw, ih p hpw]
        cases hfm : firstMin ts w rest with
        | none => simp [hpb]
        | some q =>
          by_cases hqp : |q.ts_epoch - ts| < |p.ts_epoch - ts|
          · simp [hqp, lt_trans hqp hpb]
          · simp [hqp, hpb]
      · rw [if_neg (fun hand => hpb hand.1), if_pos hpw, ih b hb]
        cases hfm : firstMin ts w rest with
        | none => simp [hpb]
        | some q =>
          by_cases hqp : |q.ts_epoch - ts| < |p.ts_epoch - ts|
          · simp [hqp]
          · have h1 : ¬ |q.ts_epoch - ts| < |b.ts_epoch - ts| :=
              not_lt.mpr (le_trans (not_lt.mp hpb) (not_lt.mp hqp))
            simp [hqp, hpb, h1]
    · rw [if_neg (fun hand => hpw hand.2), if_neg hpw, ih b hb]

theorem findNearestGo_none_eq (ts w : Int) :
    ∀ (l : List PendingShot) (bd : Int), w < bd →
      findNearestGo ts w l none bd = firstMin ts w l := by
  intro l
  induction l with
  | nil => intro bd _; rfl
  | cons p rest ih =>
    intro bd hbd
    simp only [findNearestGo, firstMin]
    by_cases hpw : |p.ts_epoch - ts| ≤ w
    · rw [if_pos ⟨lt_of_le_of_lt hpw hbd, hpw⟩, if_pos hpw,
        findNearestGo_some_eq ts w rest p hpw]
    · rw [if_neg (fun hand => hpw hand.2), if_neg hpw, ih bd hbd]

theorem firstMin_none (ts w : Int) : ∀ l, firstMin ts w l = none →
    ∀ p ∈ l, w < |p.ts_epoch - ts| := by
  intro l
  induction l with
  | nil => intro _ p hp; cases hp
  | cons p rest ih =>
    intro h q hq
    simp only [firstMin] at h
    by_cases hpw : |p.ts_epoch - ts| ≤ w
    · exfalso
      rw [if_pos hpw] at h
      cases hfm : firstMin ts w rest with
      | none => rw [hfm] at h; simp at h
      | some q2 =>
        rw [hfm] at h
        by_cases hqp : |q2.ts_epoch - ts| < |p.ts_epoch - ts| <;> simp [hqp] at h
    · rw [if_neg hpw] at h
      rcases List.mem_cons.mp hq with hqp | hq2
      · subst hqp; exact not_le.mp hpw
      · exact ih h q hq2

theorem firstMin_some (ts w : Int) : ∀ l b, firstMin ts w l = some b →
    b ∈ l ∧ |b.ts_epoch - ts| ≤ w ∧
    ∀ p ∈ l, |p.ts_epoch - ts| ≤ w →
      |b.ts_epoch - ts| ≤ |p.ts_epoch - ts| := by
  intro l
  induction l with
  | nil => intro b h; cases h
  | cons p rest ih =>
    intro b h
    simp only [firstMin] at h
    by_cases hpw : |p.ts_epoch - ts| ≤ w
    · rw [if_pos hpw] at h
      cases hfm : firstMin ts w rest with
      | none =>
        rw [hfm] at h
        simp only [Option.some.injEq] at h
        subst h
        refine ⟨List.mem_cons_self _ _, hpw, ?_⟩
        intro q hq hqw
        rcases List.mem_cons.mp hq with hqp | hq2
        · subst hqp; exact le_refl _
        · exact absurd hqw (not_le.mpr (firstMin_none ts w rest hfm q hq2))
      | some q2 =>
        rw [hfm] at h
        obtain ⟨hq2mem, hq2w, hq2min⟩ := ih q2 hfm
        by_cases hqp : |q2.ts_epoch - ts| < |p.ts_epoch - ts|
        · simp only [hqp, if_true, Option.some.injEq] at h
          subst h
          refine ⟨List.mem_cons_of_mem _ hq2mem, hq2w, ?_⟩
          intro r hr hrw
          rcases List.mem_cons.mp hr with hrp | hr2
          · subst hrp; exact le_of_lt hqp
          · exact hq2min r hr2 hrw
        · simp only [hqp, if_false, Option.some.injEq] at h
          subst h
          refine ⟨List.mem_cons_self _ _, hpw, ?_⟩
          intro r hr hrw
          rcases List.mem_cons.mp hr with hrp | hr2
          · subst hrp; exact le_refl _
          · exact le_trans (not_lt.mp hqp) (hq2min r hr2 hrw)
    · rw [if_neg hpw] at h
      obtain ⟨hmem, hbw, hmin⟩ := ih b h
      refine ⟨List.mem_cons_of_mem _ hmem, hbw, ?_⟩
      intro r hr hrw
      rcases List.mem_cons.mp hr with hrp | hr2
      · subst hrp; exact absurd hrw hpw
      · exact hmin r hr2 hrw

theorem firstMin_first (ts w : Int) : ∀ l b, firstMin ts w l = some b →
    ∃ l1 l2, l = l1 ++ b :: l2 ∧
      ∀ p ∈ l1, |p.ts_epoch - ts| ≤ w →
        |b.ts_epoch - ts| < |p.ts_epoch - ts| := by
  intro l
  induction l with
  | nil => intro b h; cases h
  | cons p rest ih =>
    intro b h
    simp only [firstMin] at h
    by_cases hpw : |p.ts_epoch - ts| ≤ w
    · rw [if_pos hpw] at h
      cases hfm : firstMin ts w rest with
      | none =>
        rw [hfm] at h
        simp only [Option.some.injEq] at h
        subst h
        exact ⟨[], rest, rfl, by simp⟩
      | some q2 =>
        rw [hfm] at h
        by_cases hqp : |q2.ts_epoch - ts| < |p.ts_epoch - ts|
        · simp only [hqp, if_true, Option.some.injEq] at h
          subst h
          obtain ⟨l1, l2, hsplit, hfirst⟩ := ih q2 hfm
          refine ⟨p :: l1, l2, by rw [hsplit, List.cons_append], ?_⟩
          intro r hr hrw
          rcases List.mem_cons.mp hr with hrp | hr2
          · subst hrp; exact hqp
          · exact hfirst r hr2 hrw
        · simp only [hqp, if_false, Option.some.injEq] at h
          subst h
          exact ⟨[], rest, rfl, by simp⟩
    · rw [if_neg hpw] at h
      obtain ⟨l1, l2, hsplit, hfirst⟩ := ih b h
      refine ⟨p :: l1, l2, by rw [hsplit, List.cons_append], ?_⟩
      intro r hr hrw
      rcases List.mem_cons.mp hr with hrp | hr2
      · subst hrp; exact absurd hrw hpw
      · exact hfirst r hr2 hrw

/-- The Pairer contract, as the spec words it: a none result means no
candidate lies within the window; a some result is a queued candidate
within the window, of minimal distance, and the first such minimiser in
queue (arrival) order.  find_nearest_screenshot is a pure function of the
state, so it mutates nothing. -/
def pairerCorrect (s : State) (ts w : Int) : Prop :=
  (find_nearest_screenshot s ts w = none →
    ∀ p ∈ s.pending_screens, w < |p.ts_epoch - ts|) ∧
  ∀ b : PendingShot, find_nearest_screenshot s ts w = some b →
    b ∈ s.pending_screens ∧ |b.ts_epoch - ts| ≤ w ∧
    (∀ p ∈ s.pending_screens, |p.ts_epoch - ts| ≤ w →
      |b.ts_epoch - ts| ≤ |p.ts_epoch - ts|) ∧
    ∃ l1 l2, s.pending_screens = l1 ++ b :: l2 ∧
      ∀ p ∈ l1, |p.ts_epoch - ts| ≤ w →
        |b.ts_epoch - ts| < |p.ts_epoch - ts|

/-- C4 (amended): for every queue, target and window below the i64::MAX
sentinel, the Pairer returns the first queued candidate minimising the
distance to the target among candidates within the window, and none
exactly when no candidate is within the window; being a pure function it
does not mutate the state.  (At window = i64::MAX exactly, a candidate at
that distance is skipped: see the counterexample.) -/
theorem pairer_nearest_within_window (s : State) (ts w : Int) (hw : w < i64MAX) :
    pairerCorrect s ts w := by
  have heq : find_nearest_screenshot s ts w = firstMin ts w s.pending_screens :=
    findNearestGo_none_eq ts w s.pending_screens i64MAX hw
  constructor
  · intro hnone
    rw [heq] at hnone
    exact firstMin_none ts w s.pending_screens hnone
  · intro b hsome
    rw [heq] at hsome
    obtain ⟨hmem, hbw, hmin⟩ := firstMin_some ts w s.pending_screens b hsome
    exact ⟨hmem, hbw, hmin, firstMin_first ts w s.pending_screens b hsome⟩

/-- C4, instantiated at window 120 on a two-element queue. -/
theorem pairer_nearest_within_window_witness :
    pairerCorrect ⟨[], [⟨"a", 240⟩, ⟨"b", 280⟩]⟩ 260 120 :=
  pairer_nearest_within_window ⟨[], [⟨"a", 240⟩, ⟨"b", 280⟩]⟩ 260 120 (by decide)

/-- C4 counterexample: with the window set to i64::MAX, a candidate whose
distance is exactly i64::MAX lies within the window yet none is returned,
because the scan starts best_dt at the i64::MAX sentinel and demands a
strictly smaller distance. -/
theorem pairer_window_sentinel_cex :
    find_nearest_screenshot ⟨[], [⟨"s", i64MAX⟩]⟩ 0 i64MAX = none ∧
    |i64MAX - (0 : Int)| ≤ i64MAX := by
  refine ⟨by decide, by decide⟩

/-- C5 counterexample: at target 260 with window 50, the screenshot at
250 (distance 10 ≤ 50) is selected — not none as the claim states. -/
theorem pairer_example_cex :
    find_nearest_screenshot ⟨[], [⟨"a", 100⟩, ⟨"b", 250⟩, ⟨"c", 400⟩]⟩ 260 50 =
      some ⟨"b", 250⟩ := by decide

/-- C5 (amended): screenshots at 100, 250, 400 against target 260: window
120 selects 250; window 50 also selects 250 (distance 10 ≤ 50); only a
window below 10, such as 5, selects none; and of two candidates
equidistant from the target (240 and 280, both at distance 20) the one
observed first is selected. -/
theorem pairer_concrete_example :
    find_nearest_screenshot ⟨[], [⟨"a", 100⟩, ⟨"b", 250⟩, ⟨"c", 400⟩]⟩ 260 120 =
      some ⟨"b", 250⟩ ∧
    find_nearest_screenshot ⟨[], [⟨"a", 100⟩, ⟨"b", 250⟩, ⟨"c", 400⟩]⟩ 260 50 =
      some ⟨"b", 250⟩ ∧
    find_nearest_screenshot ⟨[], [⟨"a", 100⟩, ⟨"b", 250⟩, ⟨"c", 400⟩]⟩ 260 5 = none ∧
    find_nearest_screenshot ⟨[], [⟨"x", 240⟩, ⟨"y", 280⟩]⟩ 260 120 =
      some ⟨"x", 240⟩ := by
  refine ⟨by decide, by decide, by decide, by decide⟩
